import Mathlib

/-
  Verification development for the `micro-framework` repository.

  This file shallowly embeds the core of the framework — the event bus
  (`MicroFramework.emitRaw` / `MicroFramework.filterRaw`), the event manager
  history (`EventManager.addToHistory`, `emit`, `filter`), the router
  (`Router.registerRoute`, `findMatchingRoute`, `matchRoute`, `navigate`,
  `handleRoute`, `handle404`) and the module manager
  (`ModuleManager.registerModule`, `dynamicImport`, `loadModule`) — and proves
  the specified behavioral properties about the embedded definitions.

  Modelling conventions:
  - JS `Map` objects (routes, modules, event listeners) become association
    lists `List (String × β)`; `mapSet` mirrors `Map.set` (an existing key is
    updated in place, keeping its insertion position) and `mapGet` mirrors
    `Map.get`/`Map.has`.
  - A filter listener's awaited result is `FRes α`: a defined value, the JS
    `undefined`, or a thrown exception (a rejected promise counts as thrown).
  - Effectful operations (navigation, module loading) return, next to the new
    state, a trace `List Act` of the observable actions they perform (events
    emitted through `framework.emit`, URL pushes, lifecycle hook calls,
    container writes).  DOM writes are recorded with their arguments; their
    visual effect is outside the model.
  - Lifecycle hooks and handlers of a module/route are abstracted to the
    outcome (`JRes.ok` or `JRes.exn`) they produce at the single invocation a
    navigation performs; guards are abstracted to the JS value (`JSVal`) the
    awaited guard call returns.  Modules carrying a `routes` declaration are
    not modelled (no claim involves route auto-registration at load time).
-/

set_option autoImplicit false

namespace MicroFrameworkSpec

universe u

/-! ## JS `Map` as an association list (insertion order preserved) -/

/-- Lookup in a JS `Map` modelled as an association list: first entry with the
key (keys are unique since `mapSet` updates in place). `Map.get`/`Map.has`. -/
def mapGet {β : Type u} : List (String × β) → String → Option β
  | [], _ => none
  | (k, v) :: rest, key => if k = key then some v else mapGet rest key

/-- `Map.set`: update an existing key in place (keeping its insertion
position), otherwise append at the end. -/
def mapSet {β : Type u} : List (String × β) → String → β → List (String × β)
  | [], key, v => [(key, v)]
  | (k, v') :: rest, key, v =>
    if k = key then (key, v) :: rest else (k, v') :: mapSet rest key v

/-! ## Event bus: `MicroFramework.filterRaw` and `MicroFramework.emitRaw` -/

/-- Awaited result of one filter-listener call (`MicroFramework.js` lines
451–469): a defined value, the JS `undefined`, or a thrown exception /
rejected promise (which the `catch` block swallows). -/
inductive FRes (α : Type) where
  | val : α → FRes α
  | undef : FRes α
  | err : FRes α
  deriving DecidableEq, Repr

/-- A filter listener: receives the current pipeline data, produces an
awaited result. -/
abbrev FilterCb (α : Type) := α → FRes α

/-- The `for (const callback of listeners)` loop of `filterRaw`
(`MicroFramework.js` lines 448–470).  `orig` is the pre-pipeline `data`
argument, `cur` is `currentData`.  A listener returning `undefined` resets
`currentData` to the original `data`; a throwing listener leaves
`currentData` as it was before the call. -/
def filterGo {α : Type} (orig : α) : List (FilterCb α) → α → α
  | [], cur => cur
  | f :: rest, cur =>
    match f cur with
    | FRes.val v => filterGo orig rest v
    | FRes.undef => filterGo orig rest orig
    | FRes.err => filterGo orig rest cur

/-- `MicroFramework.filterRaw(event, data)` (lines 442–473): if the listener
map has no entry for the event, return `data`; otherwise run the sequential
pipeline starting from `data`. -/
def filterRaw {α : Type} (listeners : List (String × List (FilterCb α)))
    (event : String) (data : α) : α :=
  match mapGet listeners event with
  | none => data
  | some ls => filterGo data ls data

/-- Outcome of a JS call: returned normally or threw. -/
inductive JRes where
  | ok : JRes
  | exn : JRes
  deriving DecidableEq, Repr

/-- An emit listener: receives the event data; we abstract its behavior to
whether the call throws. -/
abbrev EmitCb (α : Type) := α → JRes

/-- The `listeners.forEach` loop of `MicroFramework.emitRaw` (lines 428–436),
returning the trace of calls made: each listener is called inside
`try { callback(data) } catch { log }`, so the loop continues to the next
listener whether or not the call threw.  Each trace entry records the
argument passed and the call's outcome. -/
def emitLoop {α : Type} : List (EmitCb α) → α → List (α × JRes)
  | [], _ => []
  | cb :: rest, data =>
    match cb data with
    | JRes.ok => (data, JRes.ok) :: emitLoop rest data
    | JRes.exn => (data, JRes.exn) :: emitLoop rest data

/-- `MicroFramework.emitRaw(event, data)` (lines 427–437): run the listener
loop when the map has an entry for the event, otherwise do nothing. -/
def emitRaw {α : Type} (listeners : List (String × List (EmitCb α)))
    (event : String) (data : α) : List (α × JRes) :=
  match mapGet listeners event with
  | none => []
  | some ls => emitLoop ls data

/-! ## Event manager history: `EventManager.addToHistory`, `emit`, `filter` -/

/-- An event history record (`EventManager.addToHistory`, lines 384–390).
The `time` ISO string is a rendering of `timestamp` and is not modelled
separately. -/
structure EventRecord (α : Type) where
  name : String
  data : α
  source : String
  timestamp : Nat
  deriving DecidableEq, Repr

/-- `this.maxHistorySize = 100` (`EventManager.js` constructor). -/
def maxHistorySize : Nat := 100

/-- `EventManager.addToHistory` (lines 383–398): push the record, then if the
length exceeds `maxHistorySize`, `shift()` the oldest entry off the front. -/
def addToHistory {α : Type} (hist : List (EventRecord α)) (r : EventRecord α) :
    List (EventRecord α) :=
  let h := hist ++ [r]
  if maxHistorySize < h.length then h.tail else h

/-- A history-affecting bus operation: `EventManager.emit` records one entry;
`EventManager.filter` records one entry under `name ++ ":filter"` before the
pipeline and one under `name ++ ":filter-result"` after it. -/
inductive BusOp (α : Type) where
  | emitOp : String → α → String → Nat → BusOp α
  | filterOp : String → α → α → String → Nat → Nat → BusOp α
  deriving DecidableEq, Repr

/-- Effect of one bus operation on the history (`EventManager.emit` line 332;
`EventManager.filter` lines 357 and 368).  For `filterOp`, `res` is the value
the `filterRaw` pipeline produced. -/
def busStep {α : Type} (hist : List (EventRecord α)) : BusOp α → List (EventRecord α)
  | BusOp.emitOp name data source now =>
    addToHistory hist ⟨name, data, source, now⟩
  | BusOp.filterOp name data res source now now' =>
    addToHistory (addToHistory hist ⟨name ++ ":filter", data, source, now⟩)
      ⟨name ++ ":filter-result", res, source, now'⟩

/-- History after a sequence of bus operations, starting from the empty
history of a fresh `EventManager`. -/
def runBus {α : Type} (ops : List (BusOp α)) : List (EventRecord α) :=
  ops.foldl busStep []

/-! ## Event name constants (`constants.js`) -/

def EV_MODULE_REGISTERED : String := "module:registered"
def EV_MODULE_LOAD : String := "module:load"
def EV_MODULE_ERROR : String := "module:error"
def EV_ROUTE_REGISTERED : String := "route:registered"
def EV_ROUTE_CHANGE : String := "route:change"
def EV_ROUTE_ERROR : String := "route:error"
def EV_ROUTE_404 : String := "route:404"
def EV_LOADING_CHANGE : String := "loading:change"
def EV_ERROR : String := "error"

/-! ## JS values and route/module records -/

/-- A JS value, as far as guard results are concerned: `navigate` cancels on
`result === false` (`Router.js` lines 94 and 102), so the model distinguishes
the boolean `false` from every other value. -/
inductive JSVal where
  | undef : JSVal
  | null : JSVal
  | boolean : Bool → JSVal
  | num : Int → JSVal
  | str : String → JSVal
  deriving DecidableEq, Repr

/-- The strict-equality comparand `false` of the guard checks. -/
def jsFalse : JSVal := JSVal.boolean false

/-- A route handler: a callback function (abstracted to the outcome of its
single invocation) or a template string (`Router.handleRoute`, lines
144–152). -/
inductive RHandler where
  | fn : JRes → RHandler
  | template : String → RHandler
  deriving DecidableEq, Repr

/-- A module definition (`ModuleManager.registerModule` contract): `render`
is mandatory; hooks are optional and abstracted to the outcome of the single
invocation a load performs.  Modules with a `routes` declaration are outside
the model. -/
structure ModuleDef where
  name : String
  onRegister : Option JRes := none
  beforeMount : Option JRes := none
  destroy : Option JRes := none
  render : JRes := JRes.ok
  afterMount : Option JRes := none
  deriving DecidableEq, Repr

/-- A stored route record (`Router.registerRoute`, lines 53–61).  `modName`
is the `module` field; guards are abstracted to the value/outcome of their
single invocation. -/
structure Route where
  path : String
  exact : Bool := true
  beforeEnter : Option JSVal := none
  afterEnter : Option JRes := none
  modName : Option String := none
  handler : Option RHandler := none
  deriving DecidableEq, Repr

/-- The options argument of `registerRoute`: every field may be absent. -/
structure RouteOptions where
  handler : Option RHandler := none
  modName : Option String := none
  exact : Option Bool := none
  beforeEnter : Option JSVal := none
  afterEnter : Option JRes := none
  deriving DecidableEq, Repr

/-- A resolved route: the stored record plus the params extracted for this
navigation (`findMatchingRoute` returns `{...route, params}`). -/
structure Resolved where
  route : Route
  params : List (String × String)
  deriving DecidableEq, Repr

/-! ## Observable actions

Effectful operations return a trace of `Act` entries next to the new state:
every `framework.emit` call, URL push, lifecycle hook call and container
write is recorded in program order. -/

inductive Act where
  | evt : String → Act
  | loadingShown : Bool → Act
  | urlUpdate : String → Act
  | guardGlobalCall : Act
  | guardRouteCall : Act
  | onRegisterCall : String → Act
  | beforeMountCall : String → Act
  | destroyCall : String → Act
  | containerCleared : Act
  | renderCall : String → Act
  | afterMountCall : String → Act
  | handlerCall : Act
  | handlerTemplateWrite : String → List (String × String) → Act
  | templateWrite : String → Act
  | notFoundFnCall : String → Act
  | default404 : String → Act
  | afterEnterRouteCall : Act
  | afterEnterGlobalCall : Act
  | errorShown : String → Act
  deriving DecidableEq, Repr

/-- `MicroFramework.showLoading(show)`: flips the loading flag/spinner and
always emits the loading-change event (lines 302–312). -/
def showLoadingActs (b : Bool) : List Act :=
  [Act.loadingShown b, Act.evt EV_LOADING_CHANGE]

/-- `MicroFramework.showError(message, error)`: renders the error panel and
emits the generic error event (lines 317–336). -/
def showErrorActs (msg : String) : List Act :=
  [Act.errorShown msg, Act.evt EV_ERROR]

/-! ## Router: route registration and matching (`Router.js`) -/

/-- Prepend a character to the first segment of a split result (helper for
`jsSplit`). -/
def consSeg (c : Char) : List String → List String
  | [] => [String.mk [c]]
  | s :: tl => String.mk (c :: s.data) :: tl

/-- Character-list worker of `jsSplit`. -/
def splitLoop (sep : Char) : List Char → List String
  | [] => [""]
  | c :: rest =>
    if c = sep then "" :: splitLoop sep rest
    else consSeg c (splitLoop sep rest)

/-- The JS `String.prototype.split` with a one-character separator, as used
by `Router.matchRoute` (`path.split('/')`): splitting the empty string
yields `[""]`, adjacent separators yield empty segments. -/
def jsSplit (sep : Char) (s : String) : List String := splitLoop sep s.data

/-- The JS `part.startsWith(':')` test of `Router.matchRoute` (line 226). -/
def jsStartsWithColon (s : String) : Bool :=
  match s.data with
  | [] => false
  | c :: _ => c = ':'

/-- The JS `part.substring(1)` of `Router.matchRoute` (line 227). -/
def jsDrop1 (s : String) : String := String.mk s.data.tail

/-- JS object property assignment `params[name] = value` (`Router.matchRoute`
line 228): overwrite in place when the key exists, otherwise append. -/
def objSet : List (String × String) → String → String → List (String × String)
  | [], k, v => [(k, v)]
  | (k', v') :: rest, k, v =>
    if k' = k then (k, v) :: rest else (k', v') :: objSet rest k v

/-- JS object property read `params[name]`. -/
def getParam (ps : List (String × String)) (k : String) : Option String :=
  mapGet ps k

/-- The `routeParts.every((part, index) => ...)` walk of `Router.matchRoute`
(lines 224–232) over the two segment lists, threading the `params` object:
a `:name` pattern segment binds the path segment, any other pattern segment
must equal the path segment literally. -/
def matchSegs : List String → List String → List (String × String) →
    Option (List (String × String))
  | [], [], acc => some acc
  | p :: ps, a :: as', acc =>
    if jsStartsWithColon p then matchSegs ps as' (objSet acc (jsDrop1 p) a)
    else if p = a then matchSegs ps as' acc
    else none
  | _, _, _ => none

/-- `Router.matchRoute(routePath, actualPath)` (lines 216–235): split both
paths on `/`; a differing segment count never matches; otherwise match
segment-wise and return the bound params. -/
def matchRoute (routePath actualPath : String) : Option (List (String × String)) :=
  let routeParts := jsSplit '/' routePath
  let actualParts := jsSplit '/' actualPath
  if routeParts.length = actualParts.length then matchSegs routeParts actualParts []
  else none

/-- The `for (const [routePath, route] of this.routes)` scan of
`findMatchingRoute` (lines 203–208): first registered route whose pattern
matches wins. -/
def firstMatch : List (String × Route) → String → Option Resolved
  | [], _ => none
  | (routePath, route) :: rest, path =>
    match matchRoute routePath path with
    | some ps => some ⟨route, ps⟩
    | none => firstMatch rest path

/-- `Router.findMatchingRoute(path)` (lines 196–211): exact key lookup first
(returning the stored route with empty params), then the registration-order
pattern scan. -/
def findMatchingRoute (routes : List (String × Route)) (path : String) :
    Option Resolved :=
  match mapGet routes path with
  | some route => some ⟨route, []⟩
  | none => firstMatch routes path

/-- `Router.registerRoute(path, options)` (lines 46–78): throws unless the
options provide a handler or a module; otherwise stores the record under the
path key (`exact` defaults to `true` via `options.exact !== false` plus the
trailing spread) and emits the route-registered event. -/
def registerRoute (routes : List (String × Route)) (path : String)
    (opts : RouteOptions) : Except String (List (String × Route) × List Act) :=
  if opts.handler = none ∧ opts.modName = none then
    Except.error "Route must specify either a handler or module in options"
  else
    let route : Route :=
      { path := path
        exact := opts.exact.getD true
        beforeEnter := opts.beforeEnter
        afterEnter := opts.afterEnter
        modName := opts.modName
        handler := opts.handler }
    Except.ok (mapSet routes path route, [Act.evt EV_ROUTE_REGISTERED])

/-! ## Module manager (`ModuleManager.js`) -/

/-- The environment of the module manager: the `lazy` config flag and the
outcome of a dynamic `import()` per module name (`none` stands for an import
that threw or produced no module — `dynamicImport` swallows that into
`null`). -/
structure MMEnv where
  lazy : Bool := true
  importFn : String → Option ModuleDef := fun _ => none

/-- The module manager's mutable state: the registry map and the current
module reference. -/
structure MMState where
  modules : List (String × ModuleDef) := []
  currentModule : Option ModuleDef := none
  deriving DecidableEq, Repr

/-- `ModuleManager.registerModule(name, module)` for modules without a
`routes` declaration (lines 20–91): store `{ name, ...module }` (the
module's own `name` field wins over the registration key, since the spread
comes last), run `onRegister` inside an isolating try/catch if present, and
emit the module-registered event.  Validation cannot fail in the model since
`ModuleDef.render` is mandatory by construction. -/
def registerModule (st : MMState) (nm : String) (m : ModuleDef) :
    MMState × List Act :=
  let st' := { st with modules := mapSet st.modules nm m }
  let tr :=
    match m.onRegister with
    | none => []
    | some _ => [Act.onRegisterCall m.name]
  (st', tr ++ [Act.evt EV_MODULE_REGISTERED])

/-- `ModuleManager.dynamicImport(name)` (lines 179–193): if the import
produces a module, register it and return the registry entry; an import
failure is caught and yields `null`. -/
def dynamicImport (env : MMEnv) (st : MMState) (nm : String) :
    MMState × List Act × Option ModuleDef :=
  match env.importFn nm with
  | some m =>
    let (st', tr) := registerModule st nm m
    (st', tr, mapGet st'.modules nm)
  | none => (st, [], none)

/-- The `finally` block of `loadModule`: `showLoading(false)` (line 172). -/
def mmFinally : List Act := showLoadingActs false

/-- Trace of one optional lifecycle-hook call: the hook is invoked (one
recorded action) exactly when it is present. -/
def hookTr (h : Option JRes) (a : Act) : List Act :=
  match h with
  | none => []
  | some _ => [a]

/-- Step 2 of `loadModule` (lines 134–139): registry lookup, then the lazy
dynamic import when the lookup fails and `lazy` is enabled. -/
def resolveModule (env : MMEnv) (st : MMState) (nm : String) :
    MMState × List Act × Option ModuleDef :=
  match mapGet st.modules nm with
  | some m => (st, [], some m)
  | none => if env.lazy then dynamicImport env st nm else (st, [], none)

/-- Steps 3–7 of `loadModule` (lines 145–166) for a resolved module `m`:
`beforeMount`, destroy of the current module when it defines `destroy`,
container clear, `render`, `afterMount`, then set `m` current and emit the
module-load event.  Returns the state and trace accumulated up to a normal
return or a throw, plus the outcome.  The container is assumed valid
(`getContainer` does not throw in the model). -/
def loadFound (st1 : MMState) (trImp : List Act) (m : ModuleDef) :
    MMState × List Act × JRes :=
  let trB := trImp ++ hookTr m.beforeMount (Act.beforeMountCall m.name)
  if m.beforeMount = some JRes.exn then (st1, trB, JRes.exn)
  else
    let destTr :=
      match st1.currentModule with
      | some cm => hookTr cm.destroy (Act.destroyCall cm.name)
      | none => []
    let destRes :=
      match st1.currentModule with
      | some cm =>
        match cm.destroy with
        | some r => r
        | none => JRes.ok
      | none => JRes.ok
    let tr2 := trB ++ destTr
    if destRes = JRes.exn then (st1, tr2, JRes.exn)
    else
      let tr3 := tr2 ++ [Act.containerCleared, Act.renderCall m.name]
      if m.render = JRes.exn then (st1, tr3, JRes.exn)
      else
        let tr4 := tr3 ++ hookTr m.afterMount (Act.afterMountCall m.name)
        if m.afterMount = some JRes.exn then (st1, tr4, JRes.exn)
        else
          ({ st1 with currentModule := some m },
           tr4 ++ [Act.evt EV_MODULE_LOAD], JRes.ok)

/-- The try-block body of `loadModule` (lines 133–167): resolve the module,
throw "module not found" when resolution fails, otherwise run the mount
sequence. -/
def loadBody (env : MMEnv) (st : MMState) (nm : String) :
    MMState × List Act × JRes :=
  match resolveModule env st nm with
  | (st1, trImp, none) => (st1, trImp, JRes.exn)
  | (st1, trImp, some m) => loadFound st1 trImp m

/-- `ModuleManager.loadModule(name, params)` (lines 130–174):
`showLoading(true)`, the try body, on a throw the catch block (emit the
module-error event, then `showError`), and the unconditional `finally`.
Exceptions are never rethrown to the caller, so the function returns a plain
state/trace pair. -/
def loadModule (env : MMEnv) (st : MMState) (nm : String) : MMState × List Act :=
  match loadBody env st nm with
  | (st', tr, JRes.ok) => (st', showLoadingActs true ++ tr ++ mmFinally)
  | (st', tr, JRes.exn) =>
    (st', showLoadingActs true ++ tr ++ [Act.evt EV_MODULE_ERROR] ++
      showErrorActs ("Failed to load module: " ++ nm) ++ mmFinally)

/-! ## Router: navigation (`Router.navigate`, `handleRoute`, `handle404`) -/

/-- The custom not-found handler of the router config: a function, a
template string, or a module reference (`Router.handle404`, lines
255–266). -/
inductive NFHandler where
  | fn : NFHandler
  | template : String → NFHandler
  | modRef : String → NFHandler
  deriving DecidableEq, Repr

/-- The router's configuration (`Router` constructor, lines 11–18): global
guards abstracted to the value/outcome of their single invocation, plus the
optional custom not-found handler. -/
structure RouterConfig where
  beforeEnter : Option JSVal := none
  afterEnter : Option JRes := none
  notFoundHandler : Option NFHandler := none

/-- The navigation-relevant framework state: the route registry, the module
manager state, and the router's `currentRoute`. -/
structure NavState where
  routes : List (String × Route) := []
  mm : MMState := {}
  currentRoute : Option Resolved := none
  deriving DecidableEq, Repr

/-- `Router.handle404(path)` (lines 253–281): dispatch on the shape of the
configured not-found handler (template substitution of the literal token
`\x7b\x7bpath\x7d\x7d` via `String.replace`), or render the built-in 404
panel; always emit the route-404 event.  The module branch starts an
unawaited `loadModule`; its trace is recorded sequentially (no claim
depends on the interleaving with the 404 event). -/
def handle404 (cfg : RouterConfig) (env : MMEnv) (st : NavState) (path : String) :
    NavState × List Act :=
  match cfg.notFoundHandler with
  | some NFHandler.fn => (st, [Act.notFoundFnCall path, Act.evt EV_ROUTE_404])
  | some (NFHandler.template s) =>
    (st, [Act.templateWrite (s.replace "\x7b\x7bpath\x7d\x7d" path), Act.evt EV_ROUTE_404])
  | some (NFHandler.modRef m) =>
    match loadModule env st.mm m with
    | (mm', tr) => ({ st with mm := mm' }, tr ++ [Act.evt EV_ROUTE_404])
  | none => (st, [Act.default404 path, Act.evt EV_ROUTE_404])

/-- `Router.handleRoute(route)` (lines 137–154): load the route's module
first if one is named (`loadModule` recovers its own errors and never
throws), then invoke the handler — a function handler's exception
propagates; a template handler writes the processed template into the
container (the substitution output is recorded by its inputs). -/
def handleRouteBody (env : MMEnv) (mm : MMState) (resolved : Resolved) :
    MMState × List Act × JRes :=
  let loadStep : MMState × List Act :=
    match resolved.route.modName with
    | some n => loadModule env mm n
    | none => (mm, [])
  match loadStep with
  | (mm1, mTr) =>
    match resolved.route.handler with
    | none => (mm1, mTr, JRes.ok)
    | some (RHandler.fn outcome) => (mm1, mTr ++ [Act.handlerCall], outcome)
    | some (RHandler.template s) =>
      (mm1, mTr ++ [Act.handlerTemplateWrite s resolved.params], JRes.ok)

/-- The post-guard tail of `Router.navigate` (lines 107–131): the
browser-URL update unless `skipHistory`, then the try block — `handleRoute`,
the route-level then global `afterEnter` hooks, the `currentRoute` update
and the route-change event — whose catch emits the route-error event.
`cfgAfter` is the configured global `afterEnter` (the only piece of the
router config this tail consults); `pre` is the trace accumulated by the
guard phase. -/
def navigateLoad (cfgAfter : Option JRes) (env : MMEnv) (st : NavState)
    (path : String) (skipHistory : Bool) (resolved : Resolved)
    (pre : List Act) : NavState × List Act :=
  let uTr := pre ++ (if skipHistory then [] else [Act.urlUpdate path])
  match handleRouteBody env st.mm resolved with
  | (mm1, hTr, hRes) =>
    let st1 := { st with mm := mm1 }
    match hRes with
    | JRes.exn => (st1, uTr ++ hTr ++ [Act.evt EV_ROUTE_ERROR])
    | JRes.ok =>
      let aTr := hTr ++
        (match resolved.route.afterEnter with
         | none => []
         | some _ => [Act.afterEnterRouteCall])
      if resolved.route.afterEnter = some JRes.exn then
        (st1, uTr ++ aTr ++ [Act.evt EV_ROUTE_ERROR])
      else
        let bTr := aTr ++
          (match cfgAfter with
           | none => []
           | some _ => [Act.afterEnterGlobalCall])
        if cfgAfter = some JRes.exn then
          (st1, uTr ++ bTr ++ [Act.evt EV_ROUTE_ERROR])
        else
          ({ st1 with currentRoute := some resolved },
           uTr ++ bTr ++ [Act.evt EV_ROUTE_CHANGE])

/-- Trace of one optional guard call: the guard is invoked (one recorded
action) exactly when it is configured. -/
def guardTr (g : Option JSVal) (a : Act) : List Act :=
  match g with
  | none => []
  | some _ => [a]

/-- The body of `Router.navigate` after a successful `findMatchingRoute`
(lines 91–131): the global then route-specific `beforeEnter` guards (each
cancels the navigation if and only if its awaited result is strictly
`false`), then the post-guard tail `navigateLoad`. -/
def navigateResolved (cfg : RouterConfig) (env : MMEnv) (st : NavState)
    (path : String) (skipHistory : Bool) (resolved : Resolved) :
    NavState × List Act :=
  let gTr := guardTr cfg.beforeEnter Act.guardGlobalCall
  if cfg.beforeEnter = some jsFalse then (st, gTr)
  else
    let rTr := gTr ++ guardTr resolved.route.beforeEnter Act.guardRouteCall
    if resolved.route.beforeEnter = some jsFalse then (st, rTr)
    else navigateLoad cfg.afterEnter env st path skipHistory resolved rTr

/-- `Router.navigate(path, options)` (lines 83–132): resolve the path, take
the 404 branch when no route matches, otherwise run the guarded navigation
body. -/
def navigate (cfg : RouterConfig) (env : MMEnv) (st : NavState) (path : String)
    (skipHistory : Bool) : NavState × List Act :=
  match findMatchingRoute st.routes path with
  | none => handle404 cfg env st path
  | some resolved => navigateResolved cfg env st path skipHistory resolved

/-! ## Concrete listeners used by the witnesses -/

/-- A numeric filter listener `x => x + 1`. -/
def incCb : FilterCb Int := fun x => FRes.val (x + 1)

/-- A filter listener returning `undefined`. -/
def undefCb : FilterCb Int := fun _ => FRes.undef

/-- A numeric filter listener `x => x * 2`. -/
def dblCb : FilterCb Int := fun x => FRes.val (x * 2)

/-- An emit listener that throws. -/
def throwCb : EmitCb Int := fun _ => JRes.exn

/-- An emit listener that returns normally. -/
def okCb : EmitCb Int := fun _ => JRes.ok

/-- Fallback listener used for out-of-range `List.getD` reads. -/
def emitDefaultCb {α : Type} : EmitCb α := fun _ => JRes.ok

/-! ## Event bus lemmas -/

/-- The filter pipeline over an appended listener list runs the first part
and feeds its result into the second. -/
theorem filterGo_append {α : Type} (orig : α) (xs ys : List (FilterCb α))
    (cur : α) :
    filterGo orig (xs ++ ys) cur = filterGo orig ys (filterGo orig xs cur) := by
  induction xs generalizing cur with
  | nil => rfl
  | cons f rest ih =>
    simp only [List.cons_append, filterGo]
    cases f cur <;> simp [ih]

/-- The `emitRaw` loop calls every listener with the emitted data, in order,
recording each call's outcome. -/
theorem emitLoop_eq_map {α : Type} (ls : List (EmitCb α)) (data : α) :
    emitLoop ls data = ls.map (fun cb => (data, cb data)) := by
  induction ls with
  | nil => rfl
  | cons cb rest ih =>
    simp only [emitLoop, List.map_cons]
    cases h : cb data <;> simp [ih, h]

/-- C1: for every event name and every list of registered filter listeners,
when a listener stage of `filter` returns `undefined`, the pipeline continues
with the original pre-pipeline `data` value (not the previous stage's
output): the next stage receives it, and if the `undefined`-returning stage
was the last one, `filterRaw` returns the original `data` itself. -/
theorem c1_filter_undefined_reverts_to_pre_pipeline_data {α : Type}
    (m : List (String × List (FilterCb α))) (e : String) (data : α)
    (pre rest : List (FilterCb α)) (f : FilterCb α)
    (hm : mapGet m e = some (pre ++ f :: rest))
    (h : f (filterGo data pre data) = FRes.undef) :
    filterRaw m e data = filterGo data rest data ∧
    (rest = [] → filterRaw m e data = data) := by
  have hbase : filterRaw m e data = filterGo data (pre ++ f :: rest) data := by
    simp [filterRaw, hm]
  rw [filterGo_append] at hbase
  have hstep : filterGo data (f :: rest) (filterGo data pre data) =
      filterGo data rest data := by
    simp [filterGo, h]
  rw [hstep] at hbase
  exact ⟨hbase, fun hr => by simpa [hr, filterGo] using hbase⟩

/-- Witness for C1: a pipeline `[x+1, undefined, x*2]` on `10` reverts to the
original `10` after the `undefined` stage, so the last stage doubles `10`
and the filter returns `20`. -/
theorem c1_witness :
    mapGet [("evt", [incCb] ++ undefCb :: [dblCb])] "evt" =
      some ([incCb] ++ undefCb :: [dblCb]) ∧
    undefCb (filterGo 10 [incCb] 10) = FRes.undef ∧
    filterRaw [("evt", [incCb] ++ undefCb :: [dblCb])] "evt" (10 : Int) =
      filterGo 10 [dblCb] 10 ∧
    filterRaw [("evt", [incCb] ++ undefCb :: [dblCb])] "evt" (10 : Int) = 20 := by
  refine ⟨rfl, rfl, ?_, ?_⟩
  · exact (c1_filter_undefined_reverts_to_pre_pipeline_data
      [("evt", [incCb] ++ undefCb :: [dblCb])] "evt" 10 [incCb]
      [dblCb] undefCb rfl rfl).1
  · exact ((c1_filter_undefined_reverts_to_pre_pipeline_data
      [("evt", [incCb] ++ undefCb :: [dblCb])] "evt" 10 [incCb]
      [dblCb] undefCb rfl rfl).1).trans rfl

/-- C7: an exception thrown by one listener during `emit` is caught and does
not prevent any later-registered listener for the same event from being
invoked with the same data (the call trace has one entry per listener, and
each later entry records the original data being passed); likewise a filter
pipeline stage that throws is skipped and the pipeline continues with the
value from before the throwing stage's attempted transformation. -/
theorem c7_listener_errors_isolated {α : Type}
    (em : List (String × List (EmitCb α))) (e : String) (data : α)
    (ls : List (EmitCb α)) (hm : mapGet em e = some ls) :
    ((emitRaw em e data).length = ls.length ∧
     ∀ i j, i < j → j < ls.length →
       (ls.getD i emitDefaultCb) data = JRes.exn →
       (emitRaw em e data).getD j (data, JRes.ok) =
         (data, (ls.getD j emitDefaultCb) data)) ∧
    (∀ (orig cur : α) (f : FilterCb α) (rest : List (FilterCb α)),
       f cur = FRes.err →
       filterGo orig (f :: rest) cur = filterGo orig rest cur) := by
  have he : emitRaw em e data = ls.map (fun cb => (data, cb data)) := by
    simp [emitRaw, hm, emitLoop_eq_map]
  refine ⟨⟨by simp [he], ?_⟩, ?_⟩
  · intro i j _ hj _
    have hj' : j < (ls.map (fun cb => (data, cb data))).length := by simpa using hj
    rw [he, List.getD_eq_getElem _ _ hj', List.getElem_map,
      List.getD_eq_getElem _ _ hj]
  · intro orig cur f rest h
    simp [filterGo, h]

/-- Witness for C7: with listeners `[throw, ok]`, the second listener is
still called with the emitted data `5` after the first threw; and a throwing
first filter stage leaves the next stage receiving the untouched current
value. -/
theorem c7_witness :
    mapGet [("evt", [throwCb, okCb])] "evt" = some [throwCb, okCb] ∧
    throwCb 5 = JRes.exn ∧
    (emitRaw [("evt", [throwCb, okCb])] "evt" (5 : Int)).getD 1 (5, JRes.ok) =
      (5, okCb 5) ∧
    filterGo (7 : Int) [fun _ => FRes.err, dblCb] 7 = filterGo 7 [dblCb] 7 := by
  refine ⟨rfl, rfl, ?_, ?_⟩
  · have h := (c7_listener_errors_isolated [("evt", [throwCb, okCb])] "evt"
      (5 : Int) [throwCb, okCb] rfl).1.2 0 1 (by decide) (by decide) rfl
    simpa using h
  · exact (c7_listener_errors_isolated [("evt", [throwCb, okCb])] "evt"
      (5 : Int) [throwCb, okCb] rfl).2 7 7 (fun _ => FRes.err) [dblCb] rfl

/-- N incrementing stages add N to the pipeline value. -/
theorem filterGo_replicate_inc (orig : Int) (n : Nat) : ∀ (cur : Int),
    filterGo orig (List.replicate n incCb) cur = cur + n := by
  induction n with
  | zero => intro cur; simp [filterGo]
  | succ k ih =>
    intro cur
    simp only [List.replicate_succ, filterGo, incCb]
    rw [ih]
    push_cast
    ring

/-- C8: `filter(event, data)` with zero registered listeners returns `data`
unchanged (whether the event has no listener entry at all or an empty
listener list), and with N listeners each computing `x => x + 1` on numeric
data it returns `data + N`. -/
theorem c8_filter_identity_and_increment_chain
    (m : List (String × List (FilterCb Int))) (e e' : String) (d : Int)
    (n : Nat) (h0 : mapGet m e = none ∨ mapGet m e = some []) :
    filterRaw m e d = d ∧
    filterRaw [(e', List.replicate n incCb)] e' d = d + n := by
  constructor
  · rcases h0 with h | h <;> simp [filterRaw, h, filterGo]
  · simp [filterRaw, mapGet, filterGo_replicate_inc]

/-- Witness for C8: an empty listener map leaves `5` unchanged, and three
incrementing listeners turn `5` into `8`. -/
theorem c8_witness :
    (mapGet ([] : List (String × List (FilterCb Int))) "none" = none ∨
      mapGet ([] : List (String × List (FilterCb Int))) "none" = some []) ∧
    filterRaw ([] : List (String × List (FilterCb Int))) "none" (5 : Int) = 5 ∧
    filterRaw [("counter", List.replicate 3 incCb)] "counter" (5 : Int) = 8 := by
  refine ⟨Or.inl rfl, ?_, ?_⟩
  · exact (c8_filter_identity_and_increment_chain [] "none" "counter" 5 3
      (Or.inl rfl)).1
  · exact ((c8_filter_identity_and_increment_chain [] "none" "counter" 5 3
      (Or.inl rfl)).2).trans (by norm_num)

/-! ## History lemmas -/

/-- One `addToHistory` step keeps the history within the capacity. -/
theorem addToHistory_length_le {α : Type} (hist : List (EventRecord α))
    (r : EventRecord α) (h : hist.length ≤ 100) :
    (addToHistory hist r).length ≤ 100 := by
  simp only [addToHistory, maxHistorySize]
  split
  · simpa using h
  · next hc =>
    simp only [List.length_append, List.length_singleton, not_lt] at hc ⊢
    omega

/-- One bus operation keeps the history within the capacity. -/
theorem busStep_length_le {α : Type} (hist : List (EventRecord α))
    (op : BusOp α) (h : hist.length ≤ 100) :
    (busStep hist op).length ≤ 100 := by
  cases op with
  | emitOp name data source now => exact addToHistory_length_le hist _ h
  | filterOp name data res source now now' =>
    exact addToHistory_length_le _ _ (addToHistory_length_le hist _ h)

/-- The capacity bound is invariant under any sequence of bus operations. -/
theorem foldl_busStep_le {α : Type} (ops : List (BusOp α)) :
    ∀ hist : List (EventRecord α), hist.length ≤ 100 →
      (ops.foldl busStep hist).length ≤ 100 := by
  induction ops with
  | nil => intro hist h; simpa using h
  | cons op rest ih => intro hist h; exact ih _ (busStep_length_le hist op h)

/-- Recording into a full history drops exactly the oldest entry. -/
theorem addToHistory_full {α : Type} (hist : List (EventRecord α))
    (r : EventRecord α) (h : hist.length = 100) :
    addToHistory hist r = hist.tail ++ [r] := by
  cases hist with
  | nil => simp at h
  | cons a t =>
    simp only [List.length_cons] at h
    simp [addToHistory, maxHistorySize]
    omega

/-- C5: for every sequence of emit and filter operations the event history
never holds more than 100 records after any operation completes, and
eviction is FIFO: recording into a full history of 100 entries drops the
oldest entry and appends the new one, so the oldest becomes absent (when it
occurred only at the front and differs from the newcomer) while the newest
is present. -/
theorem c5_history_bounded_fifo {α : Type} (ops : List (BusOp α))
    (hist : List (EventRecord α)) (r e : EventRecord α) :
    (runBus ops).length ≤ 100 ∧
    (hist.length ≤ 100 → (addToHistory hist r).length ≤ 100) ∧
    (hist.length = 100 →
      addToHistory hist r = hist.tail ++ [r] ∧
      (addToHistory hist r).length = 100 ∧
      r ∈ addToHistory hist r ∧
      (hist.head? = some e → e ∉ hist.tail → e ≠ r →
        e ∉ addToHistory hist r)) := by
  refine ⟨foldl_busStep_le ops [] (by simp), addToHistory_length_le hist r,
    fun h => ?_⟩
  have hfull := addToHistory_full hist r h
  refine ⟨hfull, ?_, ?_, ?_⟩
  · rw [hfull]
    simp only [List.length_append, List.length_tail, List.length_singleton, h]
  · rw [hfull]; simp
  · intro _ hnt hne
    rw [hfull]
    simp only [List.mem_append, List.mem_singleton]
    rintro (hc | hc)
    · exact hnt hc
    · exact hne hc

/-- A full history of 100 distinct records, used by the C5 witness. -/
def c5hist : List (EventRecord Nat) :=
  (List.range 100).map (fun i => ⟨"x", i, "s", 0⟩)

/-- The 101st record appended to the full history. -/
def c5r : EventRecord Nat := ⟨"x", 100, "s", 0⟩

/-- The oldest record of the full history. -/
def c5e : EventRecord Nat := ⟨"x", 0, "s", 0⟩

/-- A sequence of 101 emit operations. -/
def c5ops : List (BusOp Nat) := List.replicate 101 (BusOp.emitOp "x" 0 "s" 0)

/-- Witness for C5: after 101 emissions the history holds at most 100
records, and recording the 101st entry into the concrete full history drops
its oldest record and keeps the newest. -/
theorem c5_witness :
    c5hist.length = 100 ∧
    (runBus c5ops).length ≤ 100 ∧
    addToHistory c5hist c5r = c5hist.tail ++ [c5r] ∧
    c5r ∈ addToHistory c5hist c5r ∧
    c5e ∉ addToHistory c5hist c5r := by
  have h : c5hist.length = 100 := by simp [c5hist]
  refine ⟨h, (c5_history_bounded_fifo c5ops c5hist c5r c5e).1,
    ((c5_history_bounded_fifo c5ops c5hist c5r c5e).2.2 h).1,
    ((c5_history_bounded_fifo c5ops c5hist c5r c5e).2.2 h).2.2.1,
    ((c5_history_bounded_fifo c5ops c5hist c5r c5e).2.2 h).2.2.2
      (by decide) (by decide) (by decide)⟩

/-! ## Route matching lemmas -/

/-- Names bound by the `:param` segments of a pattern's segment list. -/
def paramNames (segs : List String) : List String :=
  (segs.filter jsStartsWithColon).map jsDrop1

theorem paramNames_nil : paramNames [] = [] := rfl

theorem paramNames_cons (p : String) (ps : List String) :
    paramNames (p :: ps) =
      if jsStartsWithColon p then (jsDrop1 p) :: paramNames ps else paramNames ps := by
  by_cases h : jsStartsWithColon p <;> simp [paramNames, h]

theorem mapGet_cons {β : Type u} (k key : String) (v : β)
    (rest : List (String × β)) :
    mapGet ((k, v) :: rest) key = if k = key then some v else mapGet rest key :=
  rfl

theorem objSet_cons (k key v v' : String) (rest : List (String × String)) :
    objSet ((k, v') :: rest) key v =
      if k = key then (key, v) :: rest else (k, v') :: objSet rest key v :=
  rfl

/-- Reading back the key just written by `objSet`. -/
theorem getParam_objSet_self (acc : List (String × String)) (k v : String) :
    getParam (objSet acc k v) k = some v := by
  induction acc with
  | nil => simp [objSet, getParam, mapGet]
  | cons p rest ih =>
    obtain ⟨ka, va⟩ := p
    by_cases h : ka = k
    · rw [getParam, objSet_cons, if_pos h, mapGet_cons, if_pos rfl]
    · rw [getParam, objSet_cons, if_neg h, mapGet_cons, if_neg h]
      exact ih

/-- `objSet` leaves other keys untouched. -/
theorem getParam_objSet_ne (acc : List (String × String)) (k k' v : String)
    (h : k ≠ k') : getParam (objSet acc k' v) k = getParam acc k := by
  have h1 : ¬ k' = k := fun hc => h hc.symm
  induction acc with
  | nil =>
    rw [getParam, objSet, mapGet_cons, if_neg h1]
    rfl
  | cons p rest ih =>
    obtain ⟨ka, va⟩ := p
    by_cases hk : ka = k'
    · rw [getParam, objSet_cons, if_pos hk, mapGet_cons, if_neg h1,
        getParam, mapGet_cons, hk, if_neg h1]
    · by_cases hk2 : ka = k
      · rw [getParam, objSet_cons, if_neg hk, mapGet_cons, if_pos hk2,
          getParam, mapGet_cons, if_pos hk2]
      · rw [getParam, objSet_cons, if_neg hk, mapGet_cons, if_neg hk2,
          getParam, mapGet_cons, if_neg hk2]
        exact ih

theorem matchSegs_nil_nil (acc : List (String × String)) :
    matchSegs [] [] acc = some acc := rfl

theorem matchSegs_nil_cons (a : String) (t : List String)
    (acc : List (String × String)) : matchSegs [] (a :: t) acc = none := rfl

theorem matchSegs_cons_nil (p : String) (pt : List String)
    (acc : List (String × String)) : matchSegs (p :: pt) [] acc = none := rfl

theorem matchSegs_cons_param {p : String} (hp : jsStartsWithColon p)
    (pt : List String) (a : String) (t : List String)
    (acc : List (String × String)) :
    matchSegs (p :: pt) (a :: t) acc =
      matchSegs pt t (objSet acc (jsDrop1 p) a) := by
  simp [matchSegs, hp]

theorem matchSegs_cons_lit {p a : String} (hp : ¬ jsStartsWithColon p)
    (he : p = a) (pt t : List String) (acc : List (String × String)) :
    matchSegs (p :: pt) (a :: t) acc = matchSegs pt t acc := by
  subst he
  simp [matchSegs, hp]

theorem matchSegs_cons_ne {p a : String} (hp : ¬ jsStartsWithColon p)
    (he : p ≠ a) (pt t : List String) (acc : List (String × String)) :
    matchSegs (p :: pt) (a :: t) acc = none := by
  simp [matchSegs, hp, he]

/-- A successful segment walk implies equal segment counts. -/
theorem matchSegs_length : ∀ (ps as' : List String)
    (acc res : List (String × String)),
    matchSegs ps as' acc = some res → ps.length = as'.length := by
  intro ps
  induction ps with
  | nil =>
    intro as' acc res h
    cases as' with
    | nil => rfl
    | cons a t => rw [matchSegs_nil_cons] at h; cases h
  | cons p pt ih =>
    intro as' acc res h
    cases as' with
    | nil => rw [matchSegs_cons_nil] at h; cases h
    | cons a t =>
      simp only [List.length_cons]
      by_cases hps : jsStartsWithColon p
      · rw [matchSegs_cons_param hps] at h
        exact congrArg (· + 1) (ih t _ res h)
      · by_cases he : p = a
        · rw [matchSegs_cons_lit hps he] at h
          exact congrArg (· + 1) (ih t _ res h)
        · rw [matchSegs_cons_ne hps he] at h
          cases h

/-- A successful segment walk only writes the pattern's param names: any
other key reads back from the initial accumulator. -/
theorem matchSegs_getParam_not_mem : ∀ (ps as' : List String)
    (acc res : List (String × String)) (n : String),
    matchSegs ps as' acc = some res → n ∉ paramNames ps →
    getParam res n = getParam acc n := by
  intro ps
  induction ps with
  | nil =>
    intro as' acc res n h _
    cases as' with
    | nil => rw [matchSegs_nil_nil] at h; cases h; rfl
    | cons a t => rw [matchSegs_nil_cons] at h; cases h
  | cons p pt ih =>
    intro as' acc res n h hn
    cases as' with
    | nil => rw [matchSegs_cons_nil] at h; cases h
    | cons a t =>
      by_cases hps : jsStartsWithColon p
      · rw [paramNames_cons, if_pos hps] at hn
        simp only [List.mem_cons, not_or] at hn
        rw [matchSegs_cons_param hps] at h
        rw [ih t _ res n h hn.2]
        exact getParam_objSet_ne acc n (jsDrop1 p) a hn.1
      · rw [paramNames_cons, if_neg hps] at hn
        by_cases he : p = a
        · rw [matchSegs_cons_lit hps he] at h
          exact ih t _ res n h hn
        · rw [matchSegs_cons_ne hps he] at h
          cases h

/-- A successful segment walk binds each `:name` segment (with pairwise
distinct param names) to the path segment at the same position. -/
theorem matchSegs_bind : ∀ (ps as' : List String)
    (acc res : List (String × String)) (k : Nat),
    matchSegs ps as' acc = some res → (paramNames ps).Nodup →
    k < ps.length → jsStartsWithColon (ps.getD k "") →
    getParam res (jsDrop1 (ps.getD k "")) = some (as'.getD k "") := by
  intro ps
  induction ps with
  | nil => intro as' acc res k _ _ hk; simp at hk
  | cons p pt ih =>
    intro as' acc res k h hnd hk hp
    cases as' with
    | nil => rw [matchSegs_cons_nil] at h; cases h
    | cons a t =>
      cases k with
      | zero =>
        simp only [List.getD_cons_zero] at hp ⊢
        rw [matchSegs_cons_param hp] at h
        rw [paramNames_cons, if_pos hp, List.nodup_cons] at hnd
        rw [matchSegs_getParam_not_mem pt t _ res (jsDrop1 p) h hnd.1]
        exact getParam_objSet_self acc (jsDrop1 p) a
      | succ k' =>
        simp only [List.getD_cons_succ] at hp ⊢
        rw [paramNames_cons] at hnd
        by_cases hps : jsStartsWithColon p
        · rw [if_pos hps, List.nodup_cons] at hnd
          rw [matchSegs_cons_param hps] at h
          exact ih t _ res k' h hnd.2 (by simpa using hk) hp
        · rw [if_neg hps] at hnd
          by_cases he : p = a
          · rw [matchSegs_cons_lit hps he] at h
            exact ih t _ res k' h hnd (by simpa using hk) hp
          · rw [matchSegs_cons_ne hps he] at h
            cases h

/-- A successful segment walk forces every non-param segment to equal the
path segment at the same position. -/
theorem matchSegs_literal : ∀ (ps as' : List String)
    (acc res : List (String × String)) (k : Nat),
    matchSegs ps as' acc = some res →
    k < ps.length → ¬ jsStartsWithColon (ps.getD k "") →
    ps.getD k "" = as'.getD k "" := by
  intro ps
  induction ps with
  | nil => intro as' acc res k _ hk; simp at hk
  | cons p pt ih =>
    intro as' acc res k h hk hp
    cases as' with
    | nil => rw [matchSegs_cons_nil] at h; cases h
    | cons a t =>
      cases k with
      | zero =>
        simp only [List.getD_cons_zero] at hp ⊢
        by_cases hps : jsStartsWithColon p
        · exact absurd hps hp
        · by_cases he : p = a
          · exact he
          · rw [matchSegs_cons_ne hps he] at h
            cases h
      | succ k' =>
        simp only [List.getD_cons_succ] at hp ⊢
        by_cases hps : jsStartsWithColon p
        · rw [matchSegs_cons_param hps] at h
          exact ih t _ res k' h (by simpa using hk) hp
        · by_cases he : p = a
          · rw [matchSegs_cons_lit hps he] at h
            exact ih t _ res k' h (by simpa using hk) hp
          · rw [matchSegs_cons_ne hps he] at h
            cases h

/-- The pattern scan returns the route at the first matching position. -/
theorem firstMatch_eq_of_first : ∀ (routes : List (String × Route))
    (path : String) (i : Nat) (hi : i < routes.length)
    (ps : List (String × String)),
    matchRoute (routes.get ⟨i, hi⟩).1 path = some ps →
    (∀ j (hj : j < i),
      matchRoute (routes.get ⟨j, Nat.lt_trans hj hi⟩).1 path = none) →
    firstMatch routes path = some ⟨(routes.get ⟨i, hi⟩).2, ps⟩ := by
  intro routes
  induction routes with
  | nil => intro path i hi; simp at hi
  | cons e rest ih =>
    intro path i hi ps hm hprev
    obtain ⟨rp, r⟩ := e
    cases i with
    | zero =>
      simp only [List.get] at hm ⊢
      simp [firstMatch, hm]
    | succ i' =>
      have h0 : matchRoute rp path = none := hprev 0 (Nat.succ_pos i')
      simp only [List.get] at hm ⊢
      simp only [firstMatch, h0]
      exact ih path i' (Nat.lt_of_succ_lt_succ hi) ps hm
        (fun j hj => hprev (j + 1) (Nat.succ_lt_succ hj))

/-- The pattern scan fails when no registered route matches. -/
theorem firstMatch_eq_none : ∀ (routes : List (String × Route)) (path : String),
    (∀ e ∈ routes, matchRoute e.1 path = none) →
    firstMatch routes path = none := by
  intro routes
  induction routes with
  | nil => intro path _; rfl
  | cons e rest ih =>
    intro path h
    obtain ⟨rp, r⟩ := e
    have h0 : matchRoute rp path = none := h (rp, r) (List.mem_cons_self _ _)
    simp only [firstMatch, h0]
    exact ih path (fun e he => h e (List.mem_cons_of_mem _ he))

/-- C2: route resolution tries an exact key lookup first (a literal path
that is a registered key resolves to that exact route, with empty params,
never to a pattern); if the lookup fails, the routes are scanned in
registration order and the first pattern match wins; a pattern matches
segment-wise: a differing segment count never matches, every non-parameter
segment must equal the path segment literally, and each `:x` segment binds
`params.x` to the path segment at the same position (stated for patterns
with pairwise distinct param names). -/
theorem c2_find_matching_route_spec (routes : List (String × Route))
    (path : String) :
    (∀ r, mapGet routes path = some r →
       findMatchingRoute routes path = some ⟨r, []⟩) ∧
    (mapGet routes path = none →
       ∀ i (hi : i < routes.length) ps,
         matchRoute (routes.get ⟨i, hi⟩).1 path = some ps →
         (∀ j (hj : j < i),
           matchRoute (routes.get ⟨j, Nat.lt_trans hj hi⟩).1 path = none) →
         findMatchingRoute routes path = some ⟨(routes.get ⟨i, hi⟩).2, ps⟩) ∧
    (mapGet routes path = none →
       (∀ e ∈ routes, matchRoute e.1 path = none) →
       findMatchingRoute routes path = none) ∧
    (∀ rp ap, (jsSplit '/' rp).length ≠ (jsSplit '/' ap).length →
       matchRoute rp ap = none) ∧
    (∀ rp ap ps k, matchRoute rp ap = some ps →
       k < (jsSplit '/' rp).length →
       (¬ jsStartsWithColon ((jsSplit '/' rp).getD k "") →
          (jsSplit '/' rp).getD k "" = (jsSplit '/' ap).getD k "") ∧
       (jsStartsWithColon ((jsSplit '/' rp).getD k "") →
          (paramNames (jsSplit '/' rp)).Nodup →
          getParam ps (jsDrop1 ((jsSplit '/' rp).getD k "")) =
            some ((jsSplit '/' ap).getD k ""))) := by
  refine ⟨?_, ?_, ?_, ?_, ?_⟩
  · intro r hr
    simp [findMatchingRoute, hr]
  · intro hnone i hi ps hm hprev
    simp only [findMatchingRoute, hnone]
    exact firstMatch_eq_of_first routes path i hi ps hm hprev
  · intro hnone hall
    simp only [findMatchingRoute, hnone]
    exact firstMatch_eq_none routes path hall
  · intro rp ap hne
    simp [matchRoute, hne]
  · intro rp ap ps k hm hk
    have hsegs : matchSegs (jsSplit '/' rp) (jsSplit '/' ap) [] = some ps := by
      by_cases hl : (jsSplit '/' rp).length = (jsSplit '/' ap).length
      · simpa [matchRoute, hl] using hm
      · simp [matchRoute, hl] at hm
    exact ⟨fun hlit => matchSegs_literal _ _ _ _ k hsegs hk hlit,
      fun hpar hnd => matchSegs_bind _ _ _ _ k hsegs hnd hk hpar⟩

/-- A literal route used by the C2 witness. -/
def c2route1 : Route := { path := "/users/list", modName := some "users" }

/-- A pattern route used by the C2 witness. -/
def c2route2 : Route := { path := "/users/:id", modName := some "user-detail" }

/-- The C2 witness registry: a literal path and a pattern, in that
registration order. -/
def c2routes : List (String × Route) :=
  [("/users/list", c2route1), ("/users/:id", c2route2)]

/-- Witness for C2: `/users/list` resolves by exact lookup to the literal
route (although the pattern `/users/:id` also matches it); `/users/42`
resolves by pattern scan to the `:id` route binding `id := "42"`; a path
with a different segment count does not match the pattern. -/
theorem c2_witness :
    mapGet c2routes "/users/list" = some c2route1 ∧
    findMatchingRoute c2routes "/users/list" = some ⟨c2route1, []⟩ ∧
    mapGet c2routes "/users/42" = none ∧
    matchRoute "/users/:id" "/users/42" = some [("id", "42")] ∧
    findMatchingRoute c2routes "/users/42" = some ⟨c2route2, [("id", "42")]⟩ ∧
    (jsSplit '/' "/users/:id").length ≠ (jsSplit '/' "/users/42/extra").length ∧
    matchRoute "/users/:id" "/users/42/extra" = none ∧
    getParam [("id", "42")] "id" = some "42" := by
  have h2 : matchRoute (c2routes.get ⟨1, by decide⟩).1 "/users/42" =
      some [("id", "42")] := by
    show matchRoute "/users/:id" "/users/42" = some [("id", "42")]
    decide
  have hprev : ∀ j (hj : j < 1),
      matchRoute (c2routes.get ⟨j, Nat.lt_trans hj (by decide)⟩).1 "/users/42" =
        none := by
    intro j hj
    have hj0 : j = 0 := Nat.lt_one_iff.mp hj
    subst hj0
    show matchRoute "/users/list" "/users/42" = none
    decide
  refine ⟨by decide,
    (c2_find_matching_route_spec c2routes "/users/list").1 c2route1 (by decide),
    by decide, by decide,
    (c2_find_matching_route_spec c2routes "/users/42").2.1 (by decide) 1
      (by decide) [("id", "42")] h2 hprev,
    by decide,
    (c2_find_matching_route_spec c2routes "/users/42").2.2.2.1 "/users/:id"
      "/users/42/extra" (by decide),
    ?_⟩
  have hb := ((c2_find_matching_route_spec c2routes "/users/42").2.2.2.2
    "/users/:id" "/users/42" [("id", "42")] 2 (by decide) (by decide)).2
    (by decide) (by decide)
  simpa using hb

/-! ## Independence of route resolution from the `exact` option -/

/-- A stored route with its `exact` flag normalized away: two routes are
equal under `stripExact` precisely when they differ at most in `exact`. -/
def stripExact (r : Route) : Route := { r with exact := true }

/-- Key lookup depends only on the keys and the `stripExact` content. -/
theorem mapGet_strip (routes routes' : List (String × Route)) (path : String)
    (h : List.Forall₂ (fun e e' : String × Route =>
      e.1 = e'.1 ∧ stripExact e.2 = stripExact e'.2) routes routes') :
    (mapGet routes path).map stripExact = (mapGet routes' path).map stripExact := by
  induction h with
  | nil => rfl
  | cons he hrest ih =>
    next a b l l' =>
      obtain ⟨k, r⟩ := a
      obtain ⟨k', r'⟩ := b
      obtain ⟨hk, hr⟩ := he
      subst hk
      by_cases hp : k = path
      · simp [mapGet, hp, hr]
      · simpa [mapGet, hp] using ih

/-- The pattern scan depends only on the keys and the `stripExact` content. -/
theorem firstMatch_strip (routes routes' : List (String × Route)) (path : String)
    (h : List.Forall₂ (fun e e' : String × Route =>
      e.1 = e'.1 ∧ stripExact e.2 = stripExact e'.2) routes routes') :
    (firstMatch routes path).map (fun x => (stripExact x.route, x.params)) =
      (firstMatch routes' path).map (fun x => (stripExact x.route, x.params)) := by
  induction h with
  | nil => rfl
  | cons he hrest ih =>
    next a b l l' =>
      obtain ⟨k, r⟩ := a
      obtain ⟨k', r'⟩ := b
      obtain ⟨hk, hr⟩ := he
      subst hk
      cases hm : matchRoute k path with
      | some ps => simp [firstMatch, hm, hr]
      | none => simpa [firstMatch, hm] using ih

/-- C10: route resolution is independent of the `exact` route option — for
two registries that agree on their keys, registration order, and all route
data except the `exact` flags, `findMatchingRoute` returns the same route
(up to its recorded `exact` flag) with the same bound params; in particular
pattern matching is attempted against every route regardless of `exact`. -/
theorem c10_resolution_independent_of_exact
    (routes routes' : List (String × Route)) (path : String)
    (h : List.Forall₂ (fun e e' : String × Route =>
      e.1 = e'.1 ∧ stripExact e.2 = stripExact e'.2) routes routes') :
    (findMatchingRoute routes path).map (fun x => (stripExact x.route, x.params)) =
      (findMatchingRoute routes' path).map
        (fun x => (stripExact x.route, x.params)) := by
  cases hg : mapGet routes path with
  | some r =>
    have hmg := mapGet_strip routes routes' path h
    rw [hg] at hmg
    cases hg' : mapGet routes' path with
    | none => rw [hg'] at hmg; cases hmg
    | some r' =>
      rw [hg'] at hmg
      have hmg' : stripExact r = stripExact r' := by simpa using hmg
      simp [findMatchingRoute, hg, hg', hmg']
  | none =>
    have hmg := mapGet_strip routes routes' path h
    rw [hg] at hmg
    cases hg' : mapGet routes' path with
    | some r' => rw [hg'] at hmg; cases hmg
    | none =>
      simp only [findMatchingRoute, hg, hg']
      exact firstMatch_strip routes routes' path h

/-- The C10 witness route with `exact := true`. -/
def c10routeT : Route := { path := "/p/:x", exact := true, modName := some "m" }

/-- The C10 witness route with `exact := false`. -/
def c10routeF : Route := { path := "/p/:x", exact := false, modName := some "m" }

/-- Witness for C10: flipping the `exact` flag of a registered pattern does
not change what `/p/7` resolves to, nor the bound params. -/
theorem c10_witness :
    List.Forall₂ (fun e e' : String × Route =>
      e.1 = e'.1 ∧ stripExact e.2 = stripExact e'.2)
      [("/p/:x", c10routeT)] [("/p/:x", c10routeF)] ∧
    (findMatchingRoute [("/p/:x", c10routeT)] "/p/7").map
        (fun x => (stripExact x.route, x.params)) =
      (findMatchingRoute [("/p/:x", c10routeF)] "/p/7").map
        (fun x => (stripExact x.route, x.params)) ∧
    (findMatchingRoute [("/p/:x", c10routeT)] "/p/7").map (fun x => x.params) =
      some [("x", "7")] := by
  have hf : List.Forall₂ (fun e e' : String × Route =>
      e.1 = e'.1 ∧ stripExact e.2 = stripExact e'.2)
      [("/p/:x", c10routeT)] [("/p/:x", c10routeF)] :=
    List.Forall₂.cons ⟨rfl, by decide⟩ List.Forall₂.nil
  exact ⟨hf,
    c10_resolution_independent_of_exact [("/p/:x", c10routeT)]
      [("/p/:x", c10routeF)] "/p/7" hf,
    by decide⟩

/-! ## Guard cancellation -/

/-- C3: for every navigation whose path matches a registered route, if the
global `beforeEnter` guard returns `false`, or the global guard passes and
the route-specific `beforeEnter` guard returns `false`, the navigation is
aborted: the state (including `currentRoute`) is unchanged, the browser
location is not updated, no module `render` is invoked, and no event at all
is emitted (in particular no error event). -/
theorem c3_guard_false_cancels_silently (cfg : RouterConfig) (env : MMEnv)
    (st : NavState) (path : String) (skipHistory : Bool) (resolved : Resolved)
    (hfind : findMatchingRoute st.routes path = some resolved)
    (hcancel : cfg.beforeEnter = some jsFalse ∨
      (cfg.beforeEnter ≠ some jsFalse ∧
        resolved.route.beforeEnter = some jsFalse)) :
    (navigate cfg env st path skipHistory).1 = st ∧
    (∀ p, Act.urlUpdate p ∉ (navigate cfg env st path skipHistory).2) ∧
    (∀ m, Act.renderCall m ∉ (navigate cfg env st path skipHistory).2) ∧
    (∀ n, Act.evt n ∉ (navigate cfg env st path skipHistory).2) := by
  have hnav : navigate cfg env st path skipHistory =
      navigateResolved cfg env st path skipHistory resolved := by
    simp [navigate, hfind]
  rcases hcancel with hc | ⟨hg, hc⟩
  · have hres : navigateResolved cfg env st path skipHistory resolved =
        (st, [Act.guardGlobalCall]) := by
      simp [navigateResolved, guardTr, hc]
    rw [hnav, hres]
    refine ⟨rfl, ?_, ?_, ?_⟩ <;> intro x <;> simp
  · cases hcfg : cfg.beforeEnter with
    | none =>
      have hres : navigateResolved cfg env st path skipHistory resolved =
          (st, [Act.guardRouteCall]) := by
        simp [navigateResolved, guardTr, hcfg, hc]
      rw [hnav, hres]
      refine ⟨rfl, ?_, ?_, ?_⟩ <;> intro x <;> simp
    | some v =>
      have hv : v ≠ jsFalse := by
        intro hvv
        exact hg (by rw [hcfg, hvv])
      have hres : navigateResolved cfg env st path skipHistory resolved =
          (st, [Act.guardGlobalCall, Act.guardRouteCall]) := by
        simp [navigateResolved, guardTr, hcfg, hc, hv]
      rw [hnav, hres]
      refine ⟨rfl, ?_, ?_, ?_⟩ <;> intro x <;> simp

/-- The route used by the C3 witness. -/
def c3route : Route :=
  { path := "/admin", modName := some "admin", beforeEnter := some jsFalse }

/-- The navigation state used by the C3 witness: `/admin` registered, some
current route recorded. -/
def c3st : NavState := { routes := [("/admin", c3route)] }

/-- Witness for C3: with no global guard and the `/admin` route guard
returning `false`, navigating to `/admin` leaves the state untouched and
performs no URL update, render, or event emission. -/
theorem c3_witness :
    findMatchingRoute c3st.routes "/admin" = some ⟨c3route, []⟩ ∧
    (({} : RouterConfig).beforeEnter ≠ some jsFalse ∧
      (Resolved.mk c3route []).route.beforeEnter = some jsFalse) ∧
    ((navigate {} {} c3st "/admin" false).1 = c3st ∧
     (∀ p, Act.urlUpdate p ∉ (navigate {} {} c3st "/admin" false).2) ∧
     (∀ m, Act.renderCall m ∉ (navigate {} {} c3st "/admin" false).2) ∧
     (∀ n, Act.evt n ∉ (navigate {} {} c3st "/admin" false).2)) := by
  refine ⟨by decide, ⟨by decide, by decide⟩, ?_⟩
  exact c3_guard_false_cancels_silently {} {} c3st "/admin" false ⟨c3route, []⟩
    (by decide) (Or.inr ⟨by decide, by decide⟩)

/-- A resolved route with the per-route `beforeEnter` guard erased: the
router stores the full matched route in `currentRoute`, so two navigations
that differ only in the route's guard value can agree on the final state
only up to this stored guard. -/
def stripBeforeEnter (r : Resolved) : Resolved :=
  { r with route := { r.route with beforeEnter := none } }

/-- `handleRoute` reads only the module name, the handler and the params of
the resolved route. -/
theorem handleRouteBody_congr (env : MMEnv) (mm : MMState) (r₁ r₂ : Resolved)
    (hm : r₁.route.modName = r₂.route.modName)
    (hh : r₁.route.handler = r₂.route.handler)
    (hp : r₁.params = r₂.params) :
    handleRouteBody env mm r₁ = handleRouteBody env mm r₂ := by
  simp only [handleRouteBody, hm, hh, hp]

/-- The post-guard navigation tail treats two resolved routes that differ
only in their `beforeEnter` guard identically: same trace, same route
registry and module state, and the same `currentRoute` up to the stored
guard. -/
theorem navigateLoad_congr (cfgAfter : Option JRes) (env : MMEnv)
    (st : NavState) (path : String) (skip : Bool) (r₁ r₂ : Resolved)
    (pre : List Act) (hs : stripBeforeEnter r₁ = stripBeforeEnter r₂) :
    (navigateLoad cfgAfter env st path skip r₁ pre).2 =
      (navigateLoad cfgAfter env st path skip r₂ pre).2 ∧
    (navigateLoad cfgAfter env st path skip r₁ pre).1.routes =
      (navigateLoad cfgAfter env st path skip r₂ pre).1.routes ∧
    (navigateLoad cfgAfter env st path skip r₁ pre).1.mm =
      (navigateLoad cfgAfter env st path skip r₂ pre).1.mm ∧
    ((navigateLoad cfgAfter env st path skip r₁ pre).1.currentRoute).map
        stripBeforeEnter =
      ((navigateLoad cfgAfter env st path skip r₂ pre).1.currentRoute).map
        stripBeforeEnter := by
  have hm : r₁.route.modName = r₂.route.modName :=
    congrArg (fun x => x.route.modName) hs
  have hh : r₁.route.handler = r₂.route.handler :=
    congrArg (fun x => x.route.handler) hs
  have hp : r₁.params = r₂.params := congrArg (fun x => x.params) hs
  have ha : r₁.route.afterEnter = r₂.route.afterEnter :=
    congrArg (fun x => x.route.afterEnter) hs
  have hb := handleRouteBody_congr env st.mm r₁ r₂ hm hh hp
  simp only [navigateLoad, hb, ha]
  rcases hhb : handleRouteBody env st.mm r₂ with ⟨mm1, hTr, res⟩
  simp only [hhb]
  cases res with
  | exn => exact ⟨rfl, rfl, rfl, rfl⟩
  | ok =>
    by_cases hae : r₂.route.afterEnter = some JRes.exn
    · simp [hae]
    · by_cases hce : cfgAfter = some JRes.exn
      · simp [hae, hce]
      · simp [hae, hce, hs]

/-- C9: only the exact value `false` cancels a navigation guard — a global
or route-specific `beforeEnter` whose awaited result is any value other
than strictly `false` (e.g. `undefined`, `null`, or `0`) leads to the
navigation outcome obtained with a guard returning `true`: the same action
trace and the same final state (for the route-specific guard, up to the
guard value itself that the router records inside `currentRoute`). -/
theorem c9_only_strict_false_cancels (cfg : RouterConfig) (env : MMEnv)
    (st : NavState) (path : String) (skipHistory : Bool) (resolved : Resolved)
    (v w : JSVal) (hv : v ≠ jsFalse) (hw : w ≠ jsFalse) :
    (navigateResolved { cfg with beforeEnter := some v } env st path
        skipHistory resolved =
      navigateResolved { cfg with beforeEnter := some (JSVal.boolean true) }
        env st path skipHistory resolved) ∧
    ((navigateResolved cfg env st path skipHistory
        { resolved with route :=
            { resolved.route with beforeEnter := some w } }).2 =
      (navigateResolved cfg env st path skipHistory
        { resolved with route :=
            { resolved.route with beforeEnter := some (JSVal.boolean true) } }).2 ∧
     ((navigateResolved cfg env st path skipHistory
        { resolved with route :=
            { resolved.route with beforeEnter := some w } }).1.currentRoute).map
          stripBeforeEnter =
       ((navigateResolved cfg env st path skipHistory
        { resolved with route :=
            { resolved.route with
                beforeEnter := some (JSVal.boolean true) } }).1.currentRoute).map
          stripBeforeEnter) := by
  have hv' : ¬ ((some v : Option JSVal) = some jsFalse) := by simpa using hv
  have hw' : ¬ ((some w : Option JSVal) = some jsFalse) := by simpa using hw
  have ht' : ¬ ((some (JSVal.boolean true) : Option JSVal) = some jsFalse) := by
    decide
  constructor
  · simp only [navigateResolved]
    rw [if_neg hv', if_neg ht']
    simp only [guardTr]
  · set r₁ : Resolved :=
      { resolved with route := { resolved.route with beforeEnter := some w } }
      with hr₁
    set r₂ : Resolved :=
      { resolved with route :=
          { resolved.route with beforeEnter := some (JSVal.boolean true) } }
      with hr₂
    have hs : stripBeforeEnter r₁ = stripBeforeEnter r₂ := rfl
    by_cases hg : cfg.beforeEnter = some jsFalse
    · simp [navigateResolved, hg]
    · have h1 : r₁.route.beforeEnter = some w := rfl
      have h2 : r₂.route.beforeEnter = some (JSVal.boolean true) := rfl
      simp only [navigateResolved, if_neg hg, h1, h2, guardTr, if_neg hw',
        if_neg ht']
      cases hcb : cfg.beforeEnter with
      | none =>
        simp only [guardTr, List.nil_append]
        have hc2 := navigateLoad_congr cfg.afterEnter env st path skipHistory
          r₁ r₂ [Act.guardRouteCall] hs
        exact ⟨hc2.1, hc2.2.2.2⟩
      | some u =>
        simp only [guardTr]
        have hc := navigateLoad_congr cfg.afterEnter env st path skipHistory
          r₁ r₂ ([Act.guardGlobalCall] ++ [Act.guardRouteCall]) hs
        exact ⟨hc.1, hc.2.2.2⟩

/-- Witness for C9: a global guard returning `undefined` and a route guard
returning the number `0` both navigate exactly as a guard returning
`true`. -/
theorem c9_witness :
    (JSVal.undef ≠ jsFalse ∧ JSVal.num 0 ≠ jsFalse) ∧
    (navigateResolved { beforeEnter := some JSVal.undef } {} {} "/a" false
        ⟨{ path := "/a", modName := some "m" }, []⟩ =
      navigateResolved { beforeEnter := some (JSVal.boolean true) } {} {} "/a"
        false ⟨{ path := "/a", modName := some "m" }, []⟩) ∧
    ((navigateResolved {} {} {} "/a" false
        ⟨{ path := "/a", modName := some "m",
           beforeEnter := some (JSVal.num 0) }, []⟩).2 =
      (navigateResolved {} {} {} "/a" false
        ⟨{ path := "/a", modName := some "m",
           beforeEnter := some (JSVal.boolean true) }, []⟩).2) := by
  have hh := c9_only_strict_false_cancels {} {} {} "/a" false
    ⟨{ path := "/a", modName := some "m" }, []⟩ JSVal.undef (JSVal.num 0)
    (by decide) (by decide)
  exact ⟨⟨by decide, by decide⟩, hh.1, hh.2.1⟩

/-! ## Classification of the actions `loadModule` can record -/

/-- The kinds of actions module loading can produce: loading toggles,
module lifecycle hooks, container writes, the error panel, and the
module/loading/error events — never router actions such as the route-change
or route-error events, afterEnter hooks, guard calls or URL updates. -/
def isModuleAct (a : Act) : Bool :=
  match a with
  | Act.evt n =>
    n == EV_LOADING_CHANGE || n == EV_MODULE_REGISTERED ||
      n == EV_MODULE_LOAD || n == EV_MODULE_ERROR || n == EV_ERROR
  | Act.loadingShown _ => true
  | Act.onRegisterCall _ => true
  | Act.beforeMountCall _ => true
  | Act.destroyCall _ => true
  | Act.containerCleared => true
  | Act.renderCall _ => true
  | Act.afterMountCall _ => true
  | Act.errorShown _ => true
  | _ => false

/-- The only element a hook trace can contain is the hook's action. -/
theorem mem_hookTr {h : Option JRes} {act a : Act} (ha : a ∈ hookTr h act) :
    a = act := by
  cases h with
  | none => simp [hookTr] at ha
  | some r => simpa [hookTr] using ha

/-- The only element a guard trace can contain is the guard's action. -/
theorem mem_guardTr {g : Option JSVal} {act a : Act} (ha : a ∈ guardTr g act) :
    a = act := by
  cases g with
  | none => simp [guardTr] at ha
  | some v => simpa [guardTr] using ha

/-- Module registration records only module actions. -/
theorem registerModule_acts (st : MMState) (nm : String) (m : ModuleDef) :
    ∀ a ∈ (registerModule st nm m).2, isModuleAct a = true := by
  intro a ha
  simp only [registerModule, List.mem_append, List.mem_singleton] at ha
  rcases ha with ha | ha
  · cases hOR : m.onRegister with
    | none => rw [hOR] at ha; simp at ha
    | some r =>
      rw [hOR] at ha
      simp only [List.mem_singleton] at ha
      subst ha
      rfl
  · subst ha
    rfl

/-- Dynamic import records only module actions. -/
theorem dynamicImport_acts (env : MMEnv) (st : MMState) (nm : String) :
    ∀ a ∈ (dynamicImport env st nm).2.1, isModuleAct a = true := by
  intro a ha
  simp only [dynamicImport] at ha
  cases hI : env.importFn nm with
  | none => rw [hI] at ha; simp at ha
  | some m =>
    rw [hI] at ha
    exact registerModule_acts st nm m a ha

/-- Module resolution records only module actions. -/
theorem resolveModule_acts (env : MMEnv) (st : MMState) (nm : String) :
    ∀ a ∈ (resolveModule env st nm).2.1, isModuleAct a = true := by
  intro a ha
  simp only [resolveModule] at ha
  cases hg : mapGet st.modules nm with
  | some m => rw [hg] at ha; simp at ha
  | none =>
    rw [hg] at ha
    by_cases hl : env.lazy
    · rw [if_pos hl] at ha
      exact dynamicImport_acts env st nm a ha
    · rw [if_neg hl] at ha
      simp at ha

/-- The mount sequence records only module actions (given that the import
trace it extends does). -/
theorem loadFound_acts (st1 : MMState) (trImp : List Act) (m : ModuleDef)
    (htr : ∀ a ∈ trImp, isModuleAct a = true) :
    ∀ a ∈ (loadFound st1 trImp m).2.1, isModuleAct a = true := by
  have hB : ∀ a ∈ hookTr m.beforeMount (Act.beforeMountCall m.name),
      isModuleAct a = true := by
    intro a ha; rw [mem_hookTr ha]; rfl
  have hA : ∀ a ∈ hookTr m.afterMount (Act.afterMountCall m.name),
      isModuleAct a = true := by
    intro a ha; rw [mem_hookTr ha]; rfl
  have hD : ∀ a ∈ (match st1.currentModule with
      | some cm => hookTr cm.destroy (Act.destroyCall cm.name)
      | none => []), isModuleAct a = true := by
    intro a ha
    cases hc : st1.currentModule with
    | none => rw [hc] at ha; simp at ha
    | some cm => rw [hc] at ha; rw [mem_hookTr ha]; rfl
  have htrB : ∀ a ∈ trImp ++ hookTr m.beforeMount (Act.beforeMountCall m.name),
      isModuleAct a = true := by
    intro a ha
    rcases List.mem_append.mp ha with h | h
    · exact htr a h
    · exact hB a h
  intro a ha
  simp only [loadFound] at ha
  split at ha
  · exact htrB a ha
  · split at ha
    · rcases List.mem_append.mp ha with h | h
      · exact htrB a h
      · exact hD a h
    · split at ha
      · rcases List.mem_append.mp ha with h | h
        · rcases List.mem_append.mp h with h2 | h2
          · exact htrB a h2
          · exact hD a h2
        · rcases List.mem_cons.mp h with h2 | h2
          · subst h2; rfl
          · rw [List.mem_singleton.mp h2]; rfl
      · split at ha
        · rcases List.mem_append.mp ha with h | h
          · rcases List.mem_append.mp h with h2 | h2
            · rcases List.mem_append.mp h2 with h3 | h3
              · exact htrB a h3
              · exact hD a h3
            · rcases List.mem_cons.mp h2 with h3 | h3
              · subst h3; rfl
              · rw [List.mem_singleton.mp h3]; rfl
          · exact hA a h
        · rcases List.mem_append.mp ha with h | h
          · rcases List.mem_append.mp h with h2 | h2
            · rcases List.mem_append.mp h2 with h3 | h3
              · rcases List.mem_append.mp h3 with h4 | h4
                · exact htrB a h4
                · exact hD a h4
              · rcases List.mem_cons.mp h3 with h4 | h4
                · subst h4; rfl
                · rw [List.mem_singleton.mp h4]; rfl
            · exact hA a h2
          · rw [List.mem_singleton.mp h]; rfl

/-- The `loadModule` try body records only module actions. -/
theorem loadBody_acts (env : MMEnv) (st : MMState) (nm : String) :
    ∀ a ∈ (loadBody env st nm).2.1, isModuleAct a = true := by
  intro a ha
  simp only [loadBody] at ha
  rcases hR : resolveModule env st nm with ⟨st1, trImp, m1⟩
  rw [hR] at ha
  have htr : ∀ b ∈ trImp, isModuleAct b = true := by
    intro b hb
    apply resolveModule_acts env st nm b
    rw [hR]
    exact hb
  cases m1 with
  | none => exact htr a ha
  | some m => exact loadFound_acts st1 trImp m htr a ha

/-- C4 and C6 both rest on this: `loadModule` records only module actions —
in particular it never emits the route-change or route-error events and
never runs `afterEnter` hooks. -/
theorem loadModule_acts (env : MMEnv) (st : MMState) (nm : String) :
    ∀ a ∈ (loadModule env st nm).2, isModuleAct a = true := by
  intro a ha
  simp only [loadModule] at ha
  rcases hB : loadBody env st nm with ⟨st', tr, res⟩
  rw [hB] at ha
  have htr : ∀ b ∈ tr, isModuleAct b = true := by
    intro b hb
    apply loadBody_acts env st nm b
    rw [hB]
    exact hb
  have hSL : ∀ b ∈ showLoadingActs true, isModuleAct b = true := by
    intro b hb
    rcases List.mem_cons.mp hb with h | h
    · subst h; rfl
    · rw [List.mem_singleton.mp h]; rfl
  have hFin : ∀ b ∈ mmFinally, isModuleAct b = true := by
    intro b hb
    rcases List.mem_cons.mp hb with h | h
    · subst h; rfl
    · rw [List.mem_singleton.mp h]; rfl
  cases res with
  | ok =>
    rcases List.mem_append.mp ha with h | h
    · rcases List.mem_append.mp h with h2 | h2
      · exact hSL a h2
      · exact htr a h2
    · exact hFin a h
  | exn =>
    rcases List.mem_append.mp ha with h | h
    · rcases List.mem_append.mp h with h2 | h2
      · rcases List.mem_append.mp h2 with h3 | h3
        · rcases List.mem_append.mp h3 with h4 | h4
          · exact hSL a h4
          · exact htr a h4
        · rw [List.mem_singleton.mp h3]; rfl
      · rcases List.mem_cons.mp h2 with h3 | h3
        · subst h3; rfl
        · rw [List.mem_singleton.mp h3]; rfl
    · exact hFin a h

/-! ## C4: errors during the Loading phase -/

/-- The route of the C4 counterexample: it names module `m` and has no
handler. -/
def c4route : Route := { path := "/a", modName := some "m" }

/-- The navigation state of the C4 counterexample: `/a` registered, no
module registered under `m`, no current route. -/
def c4st : NavState := { routes := [("/a", c4route)] }

/-- The environment of the C4 counterexample: lazy loading disabled, so
loading the unregistered module `m` fails inside `loadModule`. -/
def c4env : MMEnv := { lazy := false }

/-- Counterexample to C4 as stated: navigating to `/a` raises a
module-load failure during Loading (the module-error event is emitted), yet
no route-error event is emitted, the route-change event still fires, and
`currentRoute` IS updated to the new route — because `loadModule` catches
its own errors and never rethrows, the navigation's try block succeeds. -/
theorem c4_counterexample :
    Act.evt EV_MODULE_ERROR ∈ (navigate {} c4env c4st "/a" false).2 ∧
    Act.evt EV_ROUTE_ERROR ∉ (navigate {} c4env c4st "/a" false).2 ∧
    Act.evt EV_ROUTE_CHANGE ∈ (navigate {} c4env c4st "/a" false).2 ∧
    (navigate {} c4env c4st "/a" false).1.currentRoute =
      some ⟨c4route, []⟩ := by
  decide

/-- C4 (amended): if an exception propagates out of `handleRoute` during
Loading — the route's function handler throwing being the canonical case —
then the route-error event is emitted, `currentRoute` is not updated, the
`afterEnter` hooks do not run, and no route-change event is emitted for
that navigation.  (A module load failure, by contrast, is recovered inside
`loadModule` — module-error event plus error panel — and does not abort the
navigation.) -/
theorem c4_amended_handler_exception_aborts (cfg : RouterConfig)
    (env : MMEnv) (st : NavState) (path : String) (skip : Bool)
    (resolved : Resolved)
    (hfind : findMatchingRoute st.routes path = some resolved)
    (hg : cfg.beforeEnter ≠ some jsFalse)
    (hr : resolved.route.beforeEnter ≠ some jsFalse)
    (hh : resolved.route.handler = some (RHandler.fn JRes.exn)) :
    (navigate cfg env st path skip).1.currentRoute = st.currentRoute ∧
    Act.evt EV_ROUTE_ERROR ∈ (navigate cfg env st path skip).2 ∧
    Act.evt EV_ROUTE_CHANGE ∉ (navigate cfg env st path skip).2 ∧
    Act.afterEnterRouteCall ∉ (navigate cfg env st path skip).2 ∧
    Act.afterEnterGlobalCall ∉ (navigate cfg env st path skip).2 := by
  have hnav : navigate cfg env st path skip =
      navigateResolved cfg env st path skip resolved := by
    simp [navigate, hfind]
  have hpass : navigateResolved cfg env st path skip resolved =
      navigateLoad cfg.afterEnter env st path skip resolved
        (guardTr cfg.beforeEnter Act.guardGlobalCall ++
          guardTr resolved.route.beforeEnter Act.guardRouteCall) := by
    simp only [navigateResolved, if_neg hg, if_neg hr]
  obtain ⟨mm1, mTr, hmTr, hhb⟩ :
      ∃ mm1 mTr, (∀ a ∈ mTr, isModuleAct a = true) ∧
        handleRouteBody env st.mm resolved =
          (mm1, mTr ++ [Act.handlerCall], JRes.exn) := by
    cases hmod : resolved.route.modName with
    | none =>
      refine ⟨st.mm, [], by simp, ?_⟩
      simp [handleRouteBody, hmod, hh]
    | some n =>
      rcases hlm : loadModule env st.mm n with ⟨mm1, mTr⟩
      refine ⟨mm1, mTr, ?_, ?_⟩
      · intro a ha
        apply loadModule_acts env st.mm n a
        rw [hlm]
        exact ha
      · simp [handleRouteBody, hmod, hlm, hh]
  have hfinal : navigate cfg env st path skip =
      ({ st with mm := mm1 },
       ((guardTr cfg.beforeEnter Act.guardGlobalCall ++
           guardTr resolved.route.beforeEnter Act.guardRouteCall) ++
         (if skip then [] else [Act.urlUpdate path])) ++
         (mTr ++ [Act.handlerCall]) ++ [Act.evt EV_ROUTE_ERROR]) := by
    rw [hnav, hpass]
    simp only [navigateLoad, hhb]
  have hIF : ∀ a ∈ (if skip then ([] : List Act) else [Act.urlUpdate path]),
      a = Act.urlUpdate path := by
    intro a ha
    cases skip <;> simp_all
  rw [hfinal]
  refine ⟨rfl, by simp, ?_, ?_, ?_⟩
  · intro hmem
    simp only [List.mem_append, List.mem_singleton] at hmem
    rcases hmem with (((h | h) | h) | (h | h)) | h
    · exact absurd (mem_guardTr h) (by simp)
    · exact absurd (mem_guardTr h) (by simp)
    · exact absurd (hIF _ h) (by simp)
    · exact absurd (hmTr _ h) (by decide)
    · exact absurd h (by simp)
    · exact absurd h (by decide)
  · intro hmem
    simp only [List.mem_append, List.mem_singleton] at hmem
    rcases hmem with (((h | h) | h) | (h | h)) | h
    · exact absurd (mem_guardTr h) (by simp)
    · exact absurd (mem_guardTr h) (by simp)
    · exact absurd (hIF _ h) (by simp)
    · exact absurd (hmTr _ h) (by decide)
    · exact absurd h (by simp)
    · exact absurd h (by simp)
  · intro hmem
    simp only [List.mem_append, List.mem_singleton] at hmem
    rcases hmem with (((h | h) | h) | (h | h)) | h
    · exact absurd (mem_guardTr h) (by simp)
    · exact absurd (mem_guardTr h) (by simp)
    · exact absurd (hIF _ h) (by simp)
    · exact absurd (hmTr _ h) (by decide)
    · exact absurd h (by simp)
    · exact absurd h (by simp)

/-- The route of the C4 witness: a function handler that throws. -/
def c4aroute : Route := { path := "/h", handler := some (RHandler.fn JRes.exn) }

/-- The navigation state of the C4 witness. -/
def c4ast : NavState := { routes := [("/h", c4aroute)] }

/-- Witness for the amended C4: navigating to `/h`, whose handler throws,
emits the route-error event, leaves `currentRoute` untouched, never runs
`afterEnter`, and emits no route-change event. -/
theorem c4_witness :
    findMatchingRoute c4ast.routes "/h" = some ⟨c4aroute, []⟩ ∧
    ({} : RouterConfig).beforeEnter ≠ some jsFalse ∧
    (Resolved.mk c4aroute []).route.beforeEnter ≠ some jsFalse ∧
    (Resolved.mk c4aroute []).route.handler = some (RHandler.fn JRes.exn) ∧
    ((navigate {} {} c4ast "/h" false).1.currentRoute = c4ast.currentRoute ∧
     Act.evt EV_ROUTE_ERROR ∈ (navigate {} {} c4ast "/h" false).2 ∧
     Act.evt EV_ROUTE_CHANGE ∉ (navigate {} {} c4ast "/h" false).2 ∧
     Act.afterEnterRouteCall ∉ (navigate {} {} c4ast "/h" false).2 ∧
     Act.afterEnterGlobalCall ∉ (navigate {} {} c4ast "/h" false).2) := by
  refine ⟨by decide, by decide, by decide, rfl, ?_⟩
  exact c4_amended_handler_exception_aborts {} {} c4ast "/h" false
    ⟨c4aroute, []⟩ (by decide) (by decide) (by decide) rfl

/-! ## C6: teardown precedes the next mount -/

/-- In a list of the form `l1 ++ y :: l2` with `x ∉ l1` and `x ≠ y`, every
occurrence of `x` lies strictly after the `y` at position `l1.length`. -/
theorem exists_earlier_getElem {l1 l2 : List Act} {x y : Act} (hxy : x ≠ y)
    (hx : x ∉ l1) :
    ∀ j : Nat, (l1 ++ y :: l2)[j]? = some x →
      ∃ i : Nat, i < j ∧ (l1 ++ y :: l2)[i]? = some y := by
  intro j hget
  have hyget : (l1 ++ y :: l2)[l1.length]? = some y := by
    rw [List.getElem?_append_right (le_refl l1.length)]
    simp
  refine ⟨l1.length, ?_, hyget⟩
  rcases Nat.lt_trichotomy j l1.length with h | h | h
  · exfalso
    apply hx
    rw [List.getElem?_append_left h] at hget
    exact List.getElem?_mem hget
  · exfalso
    rw [h, hyget] at hget
    exact hxy (Option.some.inj hget).symm
  · exact h

/-- C6: for distinct modules A and B with A current and defining `destroy`,
and B registered, `loadModule` for B awaits `A.destroy()` before
`B.render()` begins: every `render` call in the load trace is strictly
preceded by the `destroy` call on A. -/
theorem c6_destroy_precedes_render (env : MMEnv) (st : MMState) (nm : String)
    (A B : ModuleDef) (hcur : st.currentModule = some A)
    (hdes : A.destroy.isSome) (hB : mapGet st.modules nm = some B)
    (hAB : A.name ≠ B.name) :
    ∀ (j : Nat) (mname : String),
      (loadModule env st nm).2[j]? = some (Act.renderCall mname) →
      ∃ i : Nat, i < j ∧
        (loadModule env st nm).2[i]? = some (Act.destroyCall A.name) := by
  obtain ⟨r, hr⟩ := Option.isSome_iff_exists.mp hdes
  have hres : resolveModule env st nm = (st, [], some B) := by
    simp [resolveModule, hB]
  have hlb : loadBody env st nm = loadFound st [] B := by
    simp [loadBody, hres]
  by_cases hbm : B.beforeMount = some JRes.exn
  · intro j mname hget
    exfalso
    have hmem : Act.renderCall mname ∈ (loadModule env st nm).2 :=
      List.getElem?_mem hget
    have hlf : loadFound st [] B =
        (st, [] ++ hookTr B.beforeMount (Act.beforeMountCall B.name),
         JRes.exn) := by
      simp only [loadFound, if_pos hbm]
    rw [loadModule] at hmem
    rw [hlb, hlf] at hmem
    simp [showLoadingActs, mmFinally, showErrorActs, hookTr, hbm] at hmem
  · have hshape : ∃ tail, (loadFound st [] B).2.1 =
        ([] ++ hookTr B.beforeMount (Act.beforeMountCall B.name)) ++
          Act.destroyCall A.name :: tail := by
      simp only [loadFound, if_neg hbm, hcur, hr, hookTr]
      split
      · exact ⟨[], by simp⟩
      · split
        · exact ⟨[Act.containerCleared, Act.renderCall B.name], by simp⟩
        · split
          · exact ⟨[Act.containerCleared, Act.renderCall B.name] ++
              hookTr B.afterMount (Act.afterMountCall B.name), by simp [hookTr]⟩
          · exact ⟨([Act.containerCleared, Act.renderCall B.name] ++
              hookTr B.afterMount (Act.afterMountCall B.name)) ++
              [Act.evt EV_MODULE_LOAD], by simp [hookTr]⟩
    obtain ⟨tail, htail⟩ := hshape
    rcases hlf : loadFound st [] B with ⟨st', tr, res⟩
    rw [hlf] at htail
    have hlm : ∃ tail2, (loadModule env st nm).2 =
        (showLoadingActs true ++
          ([] ++ hookTr B.beforeMount (Act.beforeMountCall B.name))) ++
          Act.destroyCall A.name :: tail2 := by
      cases res with
      | ok =>
        refine ⟨tail ++ mmFinally, ?_⟩
        rw [loadModule, hlb, hlf]
        rw [show ((st', tr, JRes.ok) : MMState × List Act × JRes).2.1 = tr
          from rfl] at htail
        simp only [htail]
        simp [List.append_assoc]
      | exn =>
        refine ⟨tail ++ ([Act.evt EV_MODULE_ERROR] ++
          showErrorActs ("Failed to load module: " ++ nm) ++ mmFinally), ?_⟩
        rw [loadModule, hlb, hlf]
        rw [show ((st', tr, JRes.exn) : MMState × List Act × JRes).2.1 = tr
          from rfl] at htail
        simp only [htail]
        simp [List.append_assoc]
    obtain ⟨tail2, htr2⟩ := hlm
    intro j mname hget
    rw [htr2] at hget ⊢
    refine exists_earlier_getElem (by simp) ?_ j hget
    intro hmem
    rcases List.mem_append.mp hmem with h | h
    · simp [showLoadingActs] at h
    · rcases List.mem_append.mp h with h2 | h2
      · simp at h2
      · exact absurd (mem_hookTr h2) (by simp)

/-- The current module of the C6 witness: it defines `destroy`. -/
def c6A : ModuleDef := { name := "A", destroy := some JRes.ok }

/-- The module to be loaded by the C6 witness. -/
def c6B : ModuleDef := { name := "B" }

/-- The module-manager state of the C6 witness: B registered, A current. -/
def c6st : MMState := { modules := [("B", c6B)], currentModule := some c6A }

/-- Witness for C6: loading B while A is current records `B.render` at
position 4 of the trace, and the theorem places `A.destroy` strictly before
it (it sits at position 2). -/
theorem c6_witness :
    c6st.currentModule = some c6A ∧
    c6A.destroy.isSome ∧
    mapGet c6st.modules "B" = some c6B ∧
    c6A.name ≠ c6B.name ∧
    (loadModule {} c6st "B").2[4]? = some (Act.renderCall "B") ∧
    (∀ (j : Nat) (mname : String),
      (loadModule {} c6st "B").2[j]? = some (Act.renderCall mname) →
      ∃ i : Nat, i < j ∧
        (loadModule {} c6st "B").2[i]? = some (Act.destroyCall c6A.name)) := by
  refine ⟨rfl, rfl, by decide, by decide, by decide, ?_⟩
  exact c6_destroy_precedes_render {} c6st "B" c6A c6B rfl rfl
    (by decide) (by decide)

end MicroFrameworkSpec
